import Mathlib

/-!
Shallow embedding of the Yahoo notification tool (two AWS Lambda variants:
`lambda_fuction_1.py` using a DynamoDB ledger and even-position config rows,
`lambda_fuction_2.py` using an S3 CSV ledger and odd-position config rows).
Pure decision logic, batch slicing, ledger persistence and the Chatwork
notification retry loop are translated into executable Lean definitions;
external I/O (HTTP, S3, DynamoDB outcomes) is passed in as explicit data.
-/

namespace YahooTool

/-- Checks whether the first character list is an initial segment of the
second, mirroring how Python substring search walks the haystack. -/
def charsHasPref : List Char → List Char → Bool
  | [], _ => true
  | _ :: _, [] => false
  | a :: as, b :: bs => a == b && charsHasPref as bs

/-- Checks whether the needle occurs contiguously inside the haystack. -/
def charsHasSub (needle : List Char) : List Char → Bool
  | [] => charsHasPref needle []
  | b :: bs => charsHasPref needle (b :: bs) || charsHasSub needle bs

/-- Python `needle in hay` substring test on strings. -/
def pyIn (needle hay : String) : Bool :=
  charsHasSub needle.data hay.data

/-- Python `s.strip()` with no argument: whitespace removed from both
ends. -/
def pyTrim (s : String) : String :=
  String.mk (((s.data.dropWhile Char.isWhitespace).reverse.dropWhile Char.isWhitespace).reverse)

/-- Python `s.lower()`: characters lowercased one by one. -/
def pyLower (s : String) : String :=
  String.mk (s.data.map Char.toLower)

/-- Splits a character list at every character satisfying `p`, keeping
empty pieces, as Python `split` with an explicit separator does. -/
def splitCharsP (p : Char → Bool) : List Char → List (List Char)
  | [] => [[]]
  | c :: rest =>
    let r := splitCharsP p rest
    if p c then [] :: r
    else
      match r with
      | [] => [[c]]
      | h :: t => (c :: h) :: t

/-- Python `s.split(sep)` for a one-character separator. -/
def pySplitChar (sep : Char) (s : String) : List String :=
  (splitCharsP (fun c => c == sep) s.data).map String.mk

/-- Python `' '.join(ws)`. -/
def joinSpace : List String → String
  | [] => ""
  | [w] => w
  | w :: rest => w ++ " " ++ joinSpace rest

/-- Drops every occurrence of `c` from both ends of a character list,
as Python `str.strip(c)` does. -/
def dropEdge (c : Char) (l : List Char) : List Char :=
  (((l.dropWhile (· == c)).reverse.dropWhile (· == c)).reverse)

/-- Python `s.strip(c)` for a single strip character `c`. -/
def pyStripChar (c : Char) (s : String) : String :=
  String.mk (dropEdge c s.data)

/-- Python `s.split()` with no argument: split on whitespace runs,
dropping empty pieces. -/
def pySplitWs (s : String) : List String :=
  ((splitCharsP Char.isWhitespace s.data).map String.mk).filter (fun w => w ≠ "")

/-- Python `str(field).strip()` on a pandas cell: a missing (NaN) cell
stringifies to `"nan"`. -/
def pyStrStrip (f : Option String) : String :=
  pyTrim (f.getD "nan")

/-- One Yahoo search hit as consumed by search_and_notify: the name,
url and price keys are accessed by subscript (raising KeyError when
absent, hence Option), while the seller name is read with a chain of
item.get calls that defaults to 不明. -/
structure Item where
  name : Option String
  url : Option String
  price : Option String
  seller : Option String
  deriving Repr, DecidableEq

/-- One row of `config.csv`. Cells read through pandas are `none` when the
CSV cell is empty/absent (pandas NaN). -/
structure Row where
  product_keyword : Option String
  ng_keyword : Option String
  lowest_price : Option Int
  highest_price : Option Int
  sellerIdExs : Option String
  product_condition : Option String
  name : Option String
  deriving Repr, DecidableEq

/-- The three notification conditions computed from `product_condition`. -/
inductive NotifyCondition where
  | exclude_chuko
  | include_all
  | include_chuko_only
  deriving Repr, DecidableEq

/-- Why an item was skipped, one constructor per `continue` (or per missing
notification) in the item loop of `search_and_notify`. -/
inductive SkipReason where
  | excludedShop
  | alreadyNotified
  | negativeKeywordHit
  | keywordMismatch
  | usedExcluded
  | usedRequired
  deriving Repr, DecidableEq

/-- Outcome of evaluating one item against one rule. -/
inductive Decision where
  | notify (url : String) (message : String)
  | skip (reason : SkipReason)
  deriving Repr, DecidableEq

/-- A Python exception that escapes the row loop (there is no try/except
around field access in `search_and_notify`). -/
inductive EvalErr where
  | missingField (key : String)
  deriving Repr, DecidableEq

/-- Decidable equality of evaluation outcomes, so concrete runs can be
checked by `decide`. -/
def exceptDecEq {ε α : Type _} [DecidableEq ε] [DecidableEq α] : DecidableEq (Except ε α)
  | .error e, .error f =>
    if h : e = f then isTrue (by rw [h]) else isFalse (by intro hc; cases hc; exact h rfl)
  | .error _, .ok _ => isFalse (by intro hc; cases hc)
  | .ok _, .error _ => isFalse (by intro hc; cases hc)
  | .ok a, .ok b =>
    if h : a = b then isTrue (by rw [h]) else isFalse (by intro hc; cases hc; exact h rfl)

instance {ε α : Type _} [DecidableEq ε] [DecidableEq α] : DecidableEq (Except ε α) :=
  exceptDecEq

/-- The helper is_single_character from the source. -/
def isSingleCharacter (w : String) : Bool :=
  w.length == 1

/-- Python `int(s)` on a string: optional surrounding whitespace, optional
sign, at least one digit. Returns `none` where Python raises `ValueError`. -/
def pyIntParse (s : String) : Option Int :=
  let t := (pyTrim s).data
  let (sign, ds) :=
    match t with
    | '-' :: rest => ((-1 : Int), rest)
    | '+' :: rest => ((1 : Int), rest)
    | rest => ((1 : Int), rest)
  if ds ≠ [] ∧ ds.all Char.isDigit then
    some (sign * (Int.ofNat (ds.foldl (fun acc c => acc * 10 + (c.toNat - '0'.toNat)) 0)))
  else
    none

/-- Inserts a comma after every third character of a reversed digit list,
implementing the grouping of Python format spec `,`. -/
def groupRev : List Char → List Char
  | a :: b :: c :: d :: rest => a :: b :: c :: ',' :: groupRev (d :: rest)
  | l => l

/-- Python `f"{n:,}"` for an integer: thousands separators. -/
def commaFormat (n : Int) : String :=
  (if n < 0 then "-" else "") ++ String.mk ((groupRev (toString n.natAbs).data.reverse).reverse)

/-- The price formatting in the notify branch: the price parsed as int
and comma-grouped, with ValueError caught, in which case the raw value is
used. -/
def formatPrice (p : String) : String :=
  match pyIntParse p with
  | some n => commaFormat n
  | none => p

end YahooTool

namespace YahooTool

/-- The per-rule excluded-shop list parsed from the `sellerIdExs` cell:
quote-stripped, comma-split, each entry trimmed and lowercased; a missing
cell (or stringified NaN) yields the empty list. -/
def parseSellerIdExs (f : Option String) : List String :=
  let raw := pyStrStrip f
  if pyLower raw ≠ "nan" then
    (pySplitChar ',' (pyStripChar '"' raw)).map (fun s => pyLower (pyTrim s))
  else
    []

/-- The merged exclusion list of variant 1:
`set(global_excluded_shops + excluded_shops)`, modelled by list
concatenation (membership is what the code tests). Variant 2 checks only
the per-rule list, i.e. the same construction with an empty global list. -/
def allExcludedShops (globalShops : List String) (f : Option String) : List String :=
  globalShops ++ parseSellerIdExs f

/-- The stripped product_keyword cell, original_keyword in the source. -/
def originalKeyword (row : Row) : String :=
  pyStrStrip row.product_keyword

/-- The single-space split of the keyword (empty tokens kept), words in
the source. -/
def keywordTokens (row : Row) : List String :=
  pySplitChar ' ' (originalKeyword row)

/-- The keyword tokens with length-1 tokens removed, filtered_words in
the source. -/
def filteredWords (row : Row) : List String :=
  (keywordTokens row).filter (fun w => !isSingleCharacter w)

/-- The trimmed ng_keyword cell, or none for a missing cell. -/
def ngKeywordOf (row : Row) : Option String :=
  row.ng_keyword.map pyTrim

/-- The quote-stripped name cell, name_value in the source. -/
def nameValueOf (row : Row) : String :=
  pyStripChar '"' (row.name.getD "nan")

/-- The trimmed product_condition cell split on the pipe character with
each piece trimmed, product_conditions in the source. -/
def productConditions (f : Option String) : List String :=
  (pySplitChar '|' (pyStrStrip f)).map pyTrim

/-- The notify_condition classification from search_and_notify. -/
def classifyCondition (f : Option String) : NotifyCondition :=
  let conds := productConditions f
  if "新品、未使用" ∈ conds then
    if conds.length == 1 then .exclude_chuko else .include_all
  else
    .include_chuko_only

/-- The notify_condition of a config row. -/
def notifyConditionOf (row : Row) : NotifyCondition :=
  classifyCondition row.product_condition

/-- What the row loop decides to do with one row before any item is seen:
skip it (empty keyword, or every token of length 1) or call the search API
with the filtered keyword. -/
inductive RowPlan where
  | emptyKeyword
  | allTokensShort
  | search (modifiedKeyword : String)
  deriving Repr, DecidableEq

/-- The two `continue` statements that guard the search call: an empty
keyword skips the row, and an empty `filtered_words` (every token of
length 1) skips the row; otherwise the search query is
`' '.join(filtered_words)`. -/
def rowPlan (row : Row) : RowPlan :=
  if originalKeyword row = "" then .emptyKeyword
  else if filteredWords row = [] then .allTokensShort
  else .search (joinSpace (filteredWords row))

/-- Whether the row loop issues a search API call for this row. -/
def rowSearches (row : Row) : Bool :=
  match rowPlan row with
  | .search _ => true
  | _ => false

/-- The per-rule data consumed by the item loop. -/
structure RuleCtx where
  fw : List String
  ng : Option String
  cond : NotifyCondition
  excl : List String
  nameValue : String
  deriving Repr, DecidableEq

/-- The `RuleCtx` built for a row given the merged exclusion list. -/
def ruleCtxOf (globalShops : List String) (row : Row) : RuleCtx :=
  { fw := filteredWords row
    ng := ngKeywordOf row
    cond := notifyConditionOf row
    excl := allExcludedShops globalShops row.sellerIdExs
    nameValue := nameValueOf row }

/-- The lowercased trimmed shop name used in the exclusion check,
defaulting to the placeholder when the seller (or its name) is absent. -/
def sellerDisplay (item : Item) : String :=
  pyLower (pyTrim (item.seller.getD "不明"))

/-- Truthiness plus split of `ng_keyword`: with a non-empty negative
keyword phrase, does any whitespace-separated negative token occur
(lowercased) in the lowercased item name? -/
def ngHitB (ng : Option String) (itemNameLower : String) : Bool :=
  match ng with
  | none => false
  | some g => g ≠ "" && (pySplitWs g).any (fun w => pyIn (pyLower w) itemNameLower)

/-- The notification message assembled in the notify branch. -/
def mkMessage (shopName itemName formattedPrice itemUrl nameValue : String) : String :=
  "店舗名: " ++ shopName ++ "\n商品名: " ++ itemName ++ "\n価格: " ++ formattedPrice ++
  "円\nURL: " ++ itemUrl ++ "\nconfig.csvのnameカラムを参照した表示: " ++ nameValue

/-- The price read, price formatting and message assembly of the notify
branch of the item loop, for an item named `itemName` with URL `itemUrl`. -/
def notifyResOf (ctx : RuleCtx) (item : Item) (itemName itemUrl : String) :
    Except EvalErr Decision :=
  match item.price with
  | none => .error (.missingField "price")
  | some p =>
    .ok (.notify itemUrl
      (mkMessage (sellerDisplay item) itemName (formatPrice p) itemUrl ctx.nameValue))

/-- The body of the item loop of `search_and_notify`, one item at a time:
field reads, the excluded-shop check, the notified-set check, the
negative-keyword check, the keyword containment check, the condition
check, and finally the notification message. -/
def evalItem (ctx : RuleCtx) (ledger : List String) (item : Item) : Except EvalErr Decision :=
  match item.name with
  | none => .error (.missingField "name")
  | some itemName =>
    match item.url with
    | none => .error (.missingField "url")
    | some itemUrl =>
      if sellerDisplay item ∈ ctx.excl then .ok (.skip .excludedShop)
      else if itemUrl ∈ ledger then .ok (.skip .alreadyNotified)
      else
        let itemNameLower := pyLower itemName
        let allWordsPresent := ctx.fw.all (fun w => pyIn (pyLower w) itemNameLower)
        let notifyRes : Except EvalErr Decision := notifyResOf ctx item itemName itemUrl
        if ngHitB ctx.ng itemNameLower then .ok (.skip .negativeKeywordHit)
        else if allWordsPresent then
          match ctx.cond with
          | .exclude_chuko =>
            if pyIn "中古" itemName then .ok (.skip .usedExcluded) else notifyRes
          | .include_chuko_only =>
            if pyIn "中古" itemName then notifyRes else .ok (.skip .usedRequired)
          | .include_all => notifyRes
        else .ok (.skip .keywordMismatch)

/-- Whether a decision is a notification. -/
def isNotifyDecision : Decision → Bool
  | .notify _ _ => true
  | .skip _ => false

/-- Whether an evaluation outcome carries a notification. -/
def notifies (r : Except EvalErr Decision) : Bool :=
  match r with
  | .ok d => isNotifyDecision d
  | .error _ => false

end YahooTool

namespace YahooTool

/-- The mutable state of one `search_and_notify` call: the in-memory
notified set (`notified_set`, membership-checked and appended on
successful notification) and the accumulator of URLs newly notified in
this batch (`new_notified_urls`). -/
structure BatchState where
  notified : List String
  newUrls : List String
  deriving Repr, DecidableEq

/-- One iteration of the item loop: evaluation plus, on a notify decision,
the Chatwork call whose success (`chatOk`, the external outcome for that
URL) decides whether the URL is recorded. -/
def processItem (ctx : RuleCtx) (chatOk : String → Bool) (st : BatchState) (item : Item) :
    Except EvalErr BatchState :=
  match evalItem ctx st.notified item with
  | .error e => .error e
  | .ok (.skip _) => .ok st
  | .ok (.notify u _) =>
    if chatOk u then
      .ok { notified := st.notified ++ [u], newUrls := st.newUrls ++ [u] }
    else
      .ok st

/-- The item loop over the `hits` of one search response. -/
def processItems (ctx : RuleCtx) (chatOk : String → Bool) :
    List Item → BatchState → Except EvalErr BatchState
  | [], st => .ok st
  | it :: rest, st =>
    match processItem ctx chatOk st it with
    | .error e => .error e
    | .ok st' => processItems ctx chatOk rest st'

/-- One iteration of the row loop. `searchRes` is the outcome of the
search call for this row: `none` when `search_yahoo_items` returned `None`
(exhausted retries or client error), otherwise the `hits` list. -/
def processRow (globalShops : List String) (chatOk : String → Bool) (st : BatchState)
    (row : Row) (searchRes : Option (List Item)) : Except EvalErr BatchState :=
  match rowPlan row with
  | .emptyKeyword => .ok st
  | .allTokensShort => .ok st
  | .search _ =>
    match searchRes with
    | none => .ok st
    | some items => processItems (ruleCtxOf globalShops row) chatOk items st

/-- The row loop of `search_and_notify` over the batch slice, each row
paired with the outcome its search call would produce. An uncaught
exception aborts the remaining rows. -/
def processRows (globalShops : List String) (chatOk : String → Bool) :
    List (Row × Option (List Item)) → BatchState → Except EvalErr BatchState
  | [], st => .ok st
  | (row, res) :: rest, st =>
    match processRow globalShops chatOk st row res with
    | .error e => .error e
    | .ok st' => processRows globalShops chatOk rest st'

/-- The save_to_dynamodb write: a batched put_item per new URL, keyed by
the URL. Existing keys are untouched (a put of an already-present key
leaves membership unchanged), so the stored key set grows to the union. -/
def saveToDynamodb (store : List String) (newUrls : List String) : List String :=
  store ++ newUrls

/-- Outcome of reading an S3 object that exists: the read parses, or some
exception is raised while reading or parsing. -/
inductive S3ReadOutcome where
  | success
  | failure
  deriving Repr, DecidableEq

/-- The load_notified_list read of variant 2: a missing object
(NoSuchKey) and any read failure both yield the empty set. -/
def loadNotifiedList (store : Option (List String)) (outcome : S3ReadOutcome) : List String :=
  match store with
  | none => []
  | some l =>
    match outcome with
    | .success => l
    | .failure => []

/-- The save_notified_list write of variant 2: whole-object rewrite with
the final in-memory notified set. -/
def saveNotifiedList (notified : List String) : Option (List String) :=
  some notified

/-- One full batch of variant 1 (DynamoDB ledger) at the ledger level:
load (any failure degrades to the empty set), run the rows, then append
only the newly notified URLs. An uncaught exception in the row loop means
`save_to_dynamodb` is never reached and the table is left unchanged. -/
def variant1Batch (store : List String) (loadOk : Bool) (globalShops : List String)
    (chatOk : String → Bool) (rows : List (Row × Option (List Item))) : List String :=
  let led := if loadOk then store else []
  match processRows globalShops chatOk rows { notified := led, newUrls := [] } with
  | .ok st => saveToDynamodb store st.newUrls
  | .error _ => store

/-- One full batch of variant 2 (S3 CSV ledger) at the ledger level: load
(missing object or failed read degrade to the empty set), run the rows,
then rewrite the whole object with the final notified set. An uncaught
exception in the row loop means `save_notified_list` is never reached. -/
def variant2Batch (store : Option (List String)) (outcome : S3ReadOutcome)
    (chatOk : String → Bool) (rows : List (Row × Option (List Item))) :
    Option (List String) :=
  let led := loadNotifiedList store outcome
  match processRows [] chatOk rows { notified := led, newUrls := [] } with
  | .ok st => saveNotifiedList st.notified
  | .error _ => store

end YahooTool

namespace YahooTool

/-- The total_batches computation of lambda_handler: rows plus batch
size minus one, floor-divided by batch size. -/
def totalBatches (M B : Nat) : Nat :=
  (M + B - 1) / B

/-- The batch slice of the config rows: start at batch index times
batch size, end one batch size later (a Python slice clamps at the
sequence length). -/
def batchSlice (l : List α) (i B : Nat) : List α :=
  (l.drop (i * B)).take B

/-- The concatenation of the first `n` batch slices, in order. -/
def concatBatches (l : List α) (B : Nat) : Nat → List α
  | 0 => []
  | n + 1 => concatBatches l B n ++ batchSlice l n B

/-- The `lambda_handler` chaining decision:
`if current_batch + 1 < total_batches`, invoke the next batch. -/
def triggersNextBatch (M B i : Nat) : Bool :=
  decide (i + 1 < totalBatches M B)

/-- Safe positional lookup; used to express position-based row selection. -/
def rowsAtIdxs (l : List α) (idxs : List Nat) : List α :=
  idxs.filterMap (fun i => l.get? i)

/-- The 0-based positions selected by `iloc[::2]`: the even positions. -/
def evenIdxs (M : Nat) : List Nat :=
  (List.range M).filter (fun i => i % 2 == 0)

/-- The 0-based positions selected by `iloc[1::2]`: the odd positions. -/
def oddIdxs (M : Nat) : List Nat :=
  (List.range M).filter (fun i => i % 2 == 1)

/-- The config rows variant 1 keeps: `config_data.iloc[::2]`, the rows at
even 0-based positions of the unfiltered sequence. -/
def variant1ConfigRows (l : List α) : List α :=
  rowsAtIdxs l (evenIdxs l.length)

/-- The config rows variant 2 keeps: `config_data.iloc[1::2]`, the rows at
odd 0-based positions of the unfiltered sequence. -/
def variant2ConfigRows (l : List α) : List α :=
  rowsAtIdxs l (oddIdxs l.length)

/-- What one HTTP POST to the Chatwork API comes back as: a response with
a status and an optional parsed `Retry-After` header, or a requests-level
exception. -/
inductive ChatworkEvent where
  | resp (status : Nat) (retryAfter : Option Nat)
  | exn
  deriving Repr, DecidableEq

/-- Observable outcome of `send_chatwork_notification`: the returned
boolean, how many HTTP requests were made, and the `time.sleep` durations
in order. -/
structure NotifyTrace where
  success : Bool
  requests : Nat
  sleeps : List Nat
  deriving Repr, DecidableEq

/-- The retry loop of `send_chatwork_notification`: `k` is the index of
the next request, the second argument the remaining loop iterations.
Status 200 returns `True` after a 1 second sleep; status 429 sleeps the
`Retry-After` value (default 5) and retries after the 2 second retry
sleep; any other status breaks out and the function returns `False`; a
requests exception is caught and retried after the 2 second sleep. -/
def sendChatworkLoop (events : Nat → ChatworkEvent) (k : Nat) : Nat → NotifyTrace
  | 0 => { success := false, requests := k, sleeps := [] }
  | n + 1 =>
    match events k with
    | .resp s ra =>
      if s == 200 then { success := true, requests := k + 1, sleeps := [1] }
      else if s == 429 then
        let rest := sendChatworkLoop events (k + 1) n
        { success := rest.success, requests := rest.requests,
          sleeps := (ra.getD 5) :: 2 :: rest.sleeps }
      else { success := false, requests := k + 1, sleeps := [] }
    | .exn =>
      let rest := sendChatworkLoop events (k + 1) n
      { success := rest.success, requests := rest.requests, sleeps := 2 :: rest.sleeps }

/-- The full send_chatwork_notification call with the default three
retries, driven by the sequence of outcomes the server produces for
successive requests. -/
def sendChatworkNotification (events : Nat → ChatworkEvent) : NotifyTrace :=
  sendChatworkLoop events 0 3

/-- The HTTP status of an event (a requests exception has no status). -/
def statusOf : ChatworkEvent → Option Nat
  | .resp s _ => some s
  | .exn => none

/-- The parsed `Retry-After` header of an event, when present. -/
def retryAfterOf : ChatworkEvent → Option Nat
  | .resp _ ra => ra
  | .exn => none

end YahooTool

namespace YahooTool

/-- Closed form of `evalItem` once the required `name` and `url` fields
are known to be present, with the condition dispatch written as equality
tests so each branch can be selected by rewriting. -/
lemma evalItem_unfold (ctx : RuleCtx) (ledger : List String) (item : Item) (nm u : String)
    (hn : item.name = some nm) (hu : item.url = some u) :
    evalItem ctx ledger item =
      if sellerDisplay item ∈ ctx.excl then .ok (.skip .excludedShop)
      else if u ∈ ledger then .ok (.skip .alreadyNotified)
      else if ngHitB ctx.ng (pyLower nm) then .ok (.skip .negativeKeywordHit)
      else if ctx.fw.all (fun w => pyIn (pyLower w) (pyLower nm)) then
        if ctx.cond = .exclude_chuko then
          (if pyIn "中古" nm then .ok (.skip .usedExcluded) else notifyResOf ctx item nm u)
        else if ctx.cond = .include_chuko_only then
          (if pyIn "中古" nm then notifyResOf ctx item nm u else .ok (.skip .usedRequired))
        else notifyResOf ctx item nm u
      else .ok (.skip .keywordMismatch) := by
  cases hcond : ctx.cond <;> simp [evalItem, hn, hu, hcond]

/-- The notification (or missing-price error) produced at the end of the
item loop for an item named `nm` with URL `u`. -/
lemma notifyResOf_spec (ctx : RuleCtx) (item : Item) (nm u : String) :
    notifyResOf ctx item nm u =
      match item.price with
      | none => .error (.missingField "price")
      | some p =>
        .ok (.notify u (mkMessage (sellerDisplay item) nm (formatPrice p) u ctx.nameValue)) :=
  rfl

/-- A notify decision can only be produced for the present `url` field,
and only when that URL is not yet in the ledger. -/
lemma evalItem_notify_url {ctx : RuleCtx} {ledger : List String} {item : Item} {u m : String}
    (h : evalItem ctx ledger item = .ok (.notify u m)) :
    item.url = some u ∧ u ∉ ledger := by
  cases hn : item.name with
  | none => simp [evalItem, hn] at h
  | some nm =>
    cases hu : item.url with
    | none => simp [evalItem, hn, hu] at h
    | some u' =>
      rw [evalItem_unfold ctx ledger item nm u' hn hu] at h
      by_cases h1 : sellerDisplay item ∈ ctx.excl
      · rw [if_pos h1] at h
        exact Decision.noConfusion (Except.ok.inj h)
      rw [if_neg h1] at h
      by_cases h2 : u' ∈ ledger
      · rw [if_pos h2] at h
        exact Decision.noConfusion (Except.ok.inj h)
      rw [if_neg h2] at h
      by_cases h3 : ngHitB ctx.ng (pyLower nm) = true
      · rw [if_pos h3] at h
        exact Decision.noConfusion (Except.ok.inj h)
      rw [if_neg h3] at h
      by_cases h4 : (ctx.fw.all fun w => pyIn (pyLower w) (pyLower nm)) = true
      swap
      · rw [if_neg h4] at h
        exact Decision.noConfusion (Except.ok.inj h)
      rw [if_pos h4] at h
      have hkey : notifyResOf ctx item nm u' = .ok (.notify u m) →
          some u' = some u ∧ u ∉ ledger := by
        intro hx
        rw [notifyResOf_spec] at hx
        cases hp : item.price with
        | none => rw [hp] at hx; cases hx
        | some p =>
          rw [hp] at hx
          have h5 := (Decision.notify.inj (Except.ok.inj hx)).1
          subst h5
          exact ⟨rfl, h2⟩
      by_cases hc1 : ctx.cond = NotifyCondition.exclude_chuko
      · rw [if_pos hc1] at h
        by_cases hz : pyIn "中古" nm = true
        · rw [if_pos hz] at h
          exact Decision.noConfusion (Except.ok.inj h)
        · rw [if_neg hz] at h
          exact hkey h
      rw [if_neg hc1] at h
      by_cases hc2 : ctx.cond = NotifyCondition.include_chuko_only
      · rw [if_pos hc2] at h
        by_cases hz : pyIn "中古" nm = true
        · rw [if_pos hz] at h
          exact hkey h
        · rw [if_neg hz] at h
          exact Decision.noConfusion (Except.ok.inj h)
      · rw [if_neg hc2] at h
        exact hkey h

/-- One item-loop step either leaves the state unchanged or appends one
not-yet-notified URL to both the notified set and the accumulator. -/
lemma processItem_step {ctx : RuleCtx} {chatOk : String → Bool} {st st₁ : BatchState}
    {it : Item} (h : processItem ctx chatOk st it = .ok st₁) :
    st₁ = st ∨ ∃ u, u ∉ st.notified ∧
      st₁.notified = st.notified ++ [u] ∧ st₁.newUrls = st.newUrls ++ [u] := by
  unfold processItem at h
  cases he : evalItem ctx st.notified it with
  | error e => rw [he] at h; cases h
  | ok d =>
    rw [he] at h
    cases d with
    | skip r =>
      exact Or.inl (Except.ok.inj h).symm
    | notify u m =>
      simp only at h
      by_cases hc : chatOk u = true
      · rw [if_pos hc] at h
        refine Or.inr ⟨u, (evalItem_notify_url he).2, ?_, ?_⟩
        · rw [← Except.ok.inj h]
        · rw [← Except.ok.inj h]
      · rw [if_neg hc] at h
        exact Or.inl (Except.ok.inj h).symm

end YahooTool

namespace YahooTool

/-- Across the item loop the state only grows: the same URLs are appended
to the notified set and to the accumulator, and none of them was in the
notified set at entry. -/
lemma processItems_append {ctx : RuleCtx} {chatOk : String → Bool} {items : List Item}
    {st st' : BatchState} (h : processItems ctx chatOk items st = .ok st') :
    ∃ added, st'.notified = st.notified ++ added ∧ st'.newUrls = st.newUrls ++ added ∧
      ∀ v ∈ added, v ∉ st.notified := by
  induction items generalizing st with
  | nil =>
    cases h
    exact ⟨[], by simp, by simp, by simp⟩
  | cons it rest ih =>
    unfold processItems at h
    cases hstep : processItem ctx chatOk st it with
    | error e => rw [hstep] at h; cases h
    | ok st₁ =>
      rw [hstep] at h
      rcases ih h with ⟨added, hN, hU, hF⟩
      rcases processItem_step hstep with heq | ⟨u, hu, h₁N, h₁U⟩
      · subst heq
        exact ⟨added, hN, hU, hF⟩
      · refine ⟨u :: added, ?_, ?_, ?_⟩
        · rw [hN, h₁N]; simp
        · rw [hU, h₁U]; simp
        · intro v hv
          rcases List.mem_cons.mp hv with hv | hv
          · subst hv; exact hu
          · intro hmem
            exact hF v hv (by rw [h₁N]; exact List.mem_append_left _ hmem)

/-- The row-loop body preserves the grow-only shape of the state. -/
lemma processRow_append {globalShops : List String} {chatOk : String → Bool}
    {st st' : BatchState} {row : Row} {res : Option (List Item)}
    (h : processRow globalShops chatOk st row res = .ok st') :
    ∃ added, st'.notified = st.notified ++ added ∧ st'.newUrls = st.newUrls ++ added ∧
      ∀ v ∈ added, v ∉ st.notified := by
  unfold processRow at h
  rcases hp : rowPlan row with _ | _ | kw
  · rw [hp] at h
    cases h
    exact ⟨[], by simp, by simp, by simp⟩
  · rw [hp] at h
    cases h
    exact ⟨[], by simp, by simp, by simp⟩
  · rw [hp] at h
    cases res with
    | none =>
      cases h
      exact ⟨[], by simp, by simp, by simp⟩
    | some items => exact processItems_append h

/-- Across the whole row loop the state only grows: the final notified set
is the initial one extended by exactly the newly accumulated URLs, none of
which was notified at entry. -/
lemma processRows_append {globalShops : List String} {chatOk : String → Bool}
    {rows : List (Row × Option (List Item))} {st st' : BatchState}
    (h : processRows globalShops chatOk rows st = .ok st') :
    ∃ added, st'.notified = st.notified ++ added ∧ st'.newUrls = st.newUrls ++ added ∧
      ∀ v ∈ added, v ∉ st.notified := by
  induction rows generalizing st with
  | nil =>
    cases h
    exact ⟨[], by simp, by simp, by simp⟩
  | cons pr rest ih =>
    unfold processRows at h
    cases hstep : processRow globalShops chatOk st pr.1 pr.2 with
    | error e =>
      rcases pr with ⟨row, res⟩
      rw [hstep] at h
      cases h
    | ok st₁ =>
      rcases pr with ⟨row, res⟩
      rw [hstep] at h
      rcases ih h with ⟨added, hN, hU, hF⟩
      rcases processRow_append hstep with ⟨added₁, h₁N, h₁U, h₁F⟩
      refine ⟨added₁ ++ added, ?_, ?_, ?_⟩
      · rw [hN, h₁N]; simp
      · rw [hU, h₁U]; simp
      · intro v hv
        rcases List.mem_append.mp hv with hv | hv
        · exact h₁F v hv
        · intro hmem
          exact hF v hv (by rw [h₁N]; exact List.mem_append_left _ hmem)

end YahooTool

namespace YahooTool

/-- A membership witness in a one-element list pins the list down. -/
lemma eq_singleton_of_mem_of_length_one {α : Type _} {a : α} {l : List α}
    (hm : a ∈ l) (hl : l.length = 1) : l = [a] := by
  cases l with
  | nil => cases hm
  | cons b t =>
    cases t with
    | nil => simp at hm; rw [hm]
    | cons c t' => simp at hl

/-- The evaluation reduced to the condition dispatch when the shop is not
excluded, the URL is not yet notified, no negative keyword fires and every
keyword token matches. -/
lemma evalItem_cond_stage (ctx : RuleCtx) (ledger : List String) (item : Item) (nm u : String)
    (hn : item.name = some nm) (hu : item.url = some u)
    (hexcl : sellerDisplay item ∉ ctx.excl) (hled : u ∉ ledger)
    (hng : ngHitB ctx.ng (pyLower nm) = false)
    (hall : ctx.fw.all (fun w => pyIn (pyLower w) (pyLower nm)) = true) :
    evalItem ctx ledger item =
      if ctx.cond = .exclude_chuko then
        (if pyIn "中古" nm then .ok (.skip .usedExcluded) else notifyResOf ctx item nm u)
      else if ctx.cond = .include_chuko_only then
        (if pyIn "中古" nm then notifyResOf ctx item nm u else .ok (.skip .usedRequired))
      else notifyResOf ctx item nm u := by
  rw [evalItem_unfold ctx ledger item nm u hn hu]
  rw [if_neg hexcl, if_neg hled]
  rw [if_neg (by simp [hng])]
  rw [if_pos hall]

/-- C2: the condition policy derived from the pipe-delimited condition
tags is: tags exactly the singleton new-only tag → `exclude_chuko`
(an item is skipped iff its name contains the used marker 中古);
tags containing the new-only tag plus at least one other entry →
`include_all` (no condition check); tags without the new-only tag →
`include_chuko_only` (an item is skipped iff its name does NOT contain
the used marker). -/
theorem C2_condition_policy :
    ∀ f : Option String,
      (classifyCondition f = NotifyCondition.exclude_chuko ↔
        productConditions f = ["新品、未使用"]) ∧
      (classifyCondition f = NotifyCondition.include_all ↔
        "新品、未使用" ∈ productConditions f ∧ productConditions f ≠ ["新品、未使用"]) ∧
      (classifyCondition f = NotifyCondition.include_chuko_only ↔
        "新品、未使用" ∉ productConditions f) ∧
      (∀ (ctx : RuleCtx) (ledger : List String) (item : Item) (nm u p : String),
        item.name = some nm → item.url = some u → item.price = some p →
        sellerDisplay item ∉ ctx.excl → u ∉ ledger →
        ngHitB ctx.ng (pyLower nm) = false →
        ctx.fw.all (fun w => pyIn (pyLower w) (pyLower nm)) = true →
        ((ctx.cond = NotifyCondition.exclude_chuko →
            (evalItem ctx ledger item = .ok (.skip .usedExcluded) ↔ pyIn "中古" nm = true) ∧
            (notifies (evalItem ctx ledger item) = true ↔ pyIn "中古" nm = false)) ∧
         (ctx.cond = NotifyCondition.include_all →
            notifies (evalItem ctx ledger item) = true) ∧
         (ctx.cond = NotifyCondition.include_chuko_only →
            (evalItem ctx ledger item = .ok (.skip .usedRequired) ↔ pyIn "中古" nm = false) ∧
            (notifies (evalItem ctx ledger item) = true ↔ pyIn "中古" nm = true)))) := by
  intro f
  refine ⟨?_, ?_, ?_, ?_⟩
  · constructor
    · intro h
      by_cases hm : "新品、未使用" ∈ productConditions f
      · by_cases hl : (productConditions f).length = 1
        · exact eq_singleton_of_mem_of_length_one hm hl
        · exfalso
          simp [classifyCondition, hm, hl] at h
      · exfalso
        simp [classifyCondition, hm] at h
    · intro h
      simp [classifyCondition, h]
  · constructor
    · intro h
      by_cases hm : "新品、未使用" ∈ productConditions f
      · by_cases hl : (productConditions f).length = 1
        · exfalso
          simp [classifyCondition, hm, hl] at h
        · refine ⟨hm, ?_⟩
          intro hs
          rw [hs] at hl
          simp at hl
      · exfalso
        simp [classifyCondition, hm] at h
    · rintro ⟨hm, hne⟩
      by_cases hl : (productConditions f).length = 1
      · exact absurd (eq_singleton_of_mem_of_length_one hm hl) hne
      · simp [classifyCondition, hm, hl]
  · constructor
    · intro h
      by_cases hm : "新品、未使用" ∈ productConditions f
      · by_cases hl : (productConditions f).length = 1
        · exfalso
          simp [classifyCondition, hm, hl] at h
        · exfalso
          simp [classifyCondition, hm, hl] at h
      · exact hm
    · intro hm
      simp [classifyCondition, hm]
  · intro ctx ledger item nm u p hn hu hp hexcl hled hng hall
    have hred := evalItem_cond_stage ctx ledger item nm u hn hu hexcl hled hng hall
    refine ⟨?_, ?_, ?_⟩
    · intro hcond
      rw [hred, if_pos hcond]
      constructor
      · by_cases hz : pyIn "中古" nm = true
        · rw [if_pos hz]
          simp [hz]
        · rw [if_neg hz]
          simp [notifyResOf, hp, hz]
      · by_cases hz : pyIn "中古" nm = true
        · rw [if_pos hz]
          simp [notifies, isNotifyDecision, hz]
        · rw [if_neg hz]
          simp [notifyResOf, hp, notifies, isNotifyDecision, hz]
    · intro hcond
      rw [hred, if_neg (by simp [hcond]), if_neg (by simp [hcond])]
      simp [notifyResOf, hp, notifies, isNotifyDecision]
    · intro hcond
      rw [hred, if_neg (by simp [hcond]), if_pos hcond]
      constructor
      · by_cases hz : pyIn "中古" nm = true
        · rw [if_pos hz]
          simp [notifyResOf, hp, hz]
        · rw [if_neg hz]
          simp [hz]
      · by_cases hz : pyIn "中古" nm = true
        · rw [if_pos hz]
          simp [notifyResOf, hp, notifies, isNotifyDecision, hz]
        · rw [if_neg hz]
          simp [notifies, isNotifyDecision, hz]

/-- Witness for C2 at concrete inputs: the singleton new-only tag
classifies as `exclude_chuko`, and under that policy an item whose name
contains 中古 is skipped with `usedExcluded`. -/
theorem C2_condition_policy_witness :
    classifyCondition (some "新品、未使用") = NotifyCondition.exclude_chuko ∧
    evalItem { fw := [], ng := none, cond := .exclude_chuko, excl := [], nameValue := "n" } []
      { name := some "x 中古", url := some "u", price := some "100", seller := some "s" } =
      .ok (.skip .usedExcluded) :=
  ⟨(C2_condition_policy (some "新品、未使用")).1.mpr (by decide),
   (((C2_condition_policy (some "新品、未使用")).2.2.2
      { fw := [], ng := none, cond := .exclude_chuko, excl := [], nameValue := "n" } []
      { name := some "x 中古", url := some "u", price := some "100", seller := some "s" }
      "x 中古" "u" "100" rfl rfl rfl (by simp) (by simp) rfl rfl).1 rfl).1.mpr (by decide)⟩

end YahooTool

namespace YahooTool

/-- With all three required fields present, the item loop body cannot
raise: it always reaches a decision. -/
lemma evalItem_ok_of_fields {ctx : RuleCtx} {ledger : List String} {item : Item}
    (hn : item.name ≠ none) (hu : item.url ≠ none) (hp : item.price ≠ none) :
    ∃ d, evalItem ctx ledger item = .ok d := by
  cases hN : item.name with
  | none => exact absurd hN hn
  | some nm =>
    cases hU : item.url with
    | none => exact absurd hU hu
    | some u =>
      cases hP : item.price with
      | none => exact absurd hP hp
      | some p =>
        rw [evalItem_unfold ctx ledger item nm u hN hU]
        split_ifs <;>
          first
          | exact ⟨_, rfl⟩
          | exact ⟨Decision.notify u (mkMessage (sellerDisplay item) nm (formatPrice p) u
              ctx.nameValue), by rw [notifyResOf_spec, hP]⟩

/-- C4: the exclusion set used during matching is the union of the global
set with the parsed per-rule set (lowercase trimmed comma-separated
entries of the quote-stripped cell; an absent cell contributes nothing),
and an item whose lowercased trimmed shop name lies in that union is
skipped as `excludedShop` and never notified, regardless of keywords. -/
theorem C4_exclusion_set :
    (∀ (globalShops : List String) (f : Option String) (s : String),
      s ∈ allExcludedShops globalShops f ↔ s ∈ globalShops ∨ s ∈ parseSellerIdExs f) ∧
    parseSellerIdExs none = [] ∧
    (∀ (globalShops : List String) (row : Row) (ledger : List String) (item : Item)
        (nm u : String),
      item.name = some nm → item.url = some u →
      sellerDisplay item ∈ allExcludedShops globalShops row.sellerIdExs →
      evalItem (ruleCtxOf globalShops row) ledger item = .ok (.skip .excludedShop) ∧
      notifies (evalItem (ruleCtxOf globalShops row) ledger item) = false) := by
  refine ⟨?_, ?_, ?_⟩
  · intro globalShops f s
    simp [allExcludedShops]
  · rfl
  · intro globalShops row ledger item nm u hn hu hmem
    have hx : sellerDisplay item ∈ (ruleCtxOf globalShops row).excl := hmem
    have h := evalItem_unfold (ruleCtxOf globalShops row) ledger item nm u hn hu
    rw [if_pos hx] at h
    exact ⟨h, by rw [h]; rfl⟩

/-- Witness for C4: a shop present in the per-rule exclusion list (after
quote stripping, trimming and lowercasing) is skipped at the shop check. -/
theorem C4_exclusion_set_witness :
    evalItem
      (ruleCtxOf ["globalshop"]
        { product_keyword := some "foo", ng_keyword := none, lowest_price := none,
          highest_price := none, sellerIdExs := some "\"ShopA, ShopB\"",
          product_condition := some "新品、未使用", name := some "label" }) []
      { name := some "foo thing", url := some "u1", price := some "500",
        seller := some " SHOPa " } = .ok (.skip .excludedShop) :=
  ((C4_exclusion_set.2.2 ["globalshop"]
    { product_keyword := some "foo", ng_keyword := none, lowest_price := none,
      highest_price := none, sellerIdExs := some "\"ShopA, ShopB\"",
      product_condition := some "新品、未使用", name := some "label" } []
    { name := some "foo thing", url := some "u1", price := some "500",
      seller := some " SHOPa " }
    "foo thing" "u1" rfl rfl (by decide)).1)

/-- C10: an item whose seller (or seller name) is absent evaluates exactly
like the same item with the placeholder seller 不明: evaluation does not
fail on that account, the shop name used is the placeholder, and the item
is excluded at the shop check precisely when the placeholder itself is in
the exclusion set. -/
theorem C10_missing_seller :
    ∀ (ctx : RuleCtx) (ledger : List String) (item : Item),
      item.seller = none →
      evalItem ctx ledger item = evalItem ctx ledger { item with seller := some "不明" } ∧
      sellerDisplay item = "不明" ∧
      (∀ nm u p, item.name = some nm → item.url = some u → item.price = some p →
        (∃ d, evalItem ctx ledger item = .ok d) ∧
        (evalItem ctx ledger item = .ok (.skip .excludedShop) ↔ "不明" ∈ ctx.excl)) := by
  intro ctx ledger item hs
  have hsd : sellerDisplay item = "不明" := by
    rw [sellerDisplay, hs]
    decide
  refine ⟨?_, hsd, ?_⟩
  · cases hn : item.name with
    | none => simp [evalItem, hn]
    | some nm =>
      cases hu : item.url with
      | none => simp [evalItem, hn, hu]
      | some u =>
        have hsd2 : sellerDisplay
            { name := some nm, url := some u, price := item.price, seller := some "不明" } =
            sellerDisplay item := by
          simp [sellerDisplay, hs]
        have hnr : notifyResOf ctx
            { name := some nm, url := some u, price := item.price, seller := some "不明" }
            nm u = notifyResOf ctx item nm u := by
          simp [notifyResOf, hsd2]
        rw [evalItem_unfold ctx ledger item nm u hn hu,
            evalItem_unfold ctx ledger
              { name := some nm, url := some u, price := item.price, seller := some "不明" }
              nm u rfl rfl]
        rw [hsd2, hnr]
  · intro nm u p hn hu hp
    constructor
    · exact evalItem_ok_of_fields (by rw [hn]; exact fun hc => Option.noConfusion hc)
        (by rw [hu]; exact fun hc => Option.noConfusion hc)
        (by rw [hp]; exact fun hc => Option.noConfusion hc)
    · have h := evalItem_unfold ctx ledger item nm u hn hu
      rw [hsd] at h
      by_cases hmem : "不明" ∈ ctx.excl
      · rw [if_pos hmem] at h
        exact ⟨fun _ => hmem, fun _ => h⟩
      · rw [if_neg hmem] at h
        refine ⟨fun hres => absurd ?_ hmem, fun hmem2 => absurd hmem2 hmem⟩
        rw [h] at hres
        by_cases h2 : u ∈ ledger
        · rw [if_pos h2] at hres
          exact absurd (SkipReason.noConfusion (Decision.skip.inj (Except.ok.inj hres)))
            (fun hc => hc)
        · rw [if_neg h2] at hres
          by_cases h3 : ngHitB ctx.ng (pyLower nm) = true
          · rw [if_pos h3] at hres
            exact absurd (SkipReason.noConfusion (Decision.skip.inj (Except.ok.inj hres)))
              (fun hc => hc)
          · rw [if_neg h3] at hres
            by_cases h4 : (ctx.fw.all fun w => pyIn (pyLower w) (pyLower nm)) = true
            · rw [if_pos h4] at hres
              exfalso
              by_cases hc1 : ctx.cond = NotifyCondition.exclude_chuko
              · rw [if_pos hc1] at hres
                by_cases hz : pyIn "中古" nm = true
                · rw [if_pos hz] at hres
                  exact SkipReason.noConfusion (Decision.skip.inj (Except.ok.inj hres))
                · rw [if_neg hz, notifyResOf_spec, hp] at hres
                  exact Decision.noConfusion (Except.ok.inj hres)
              · rw [if_neg hc1] at hres
                by_cases hc2 : ctx.cond = NotifyCondition.include_chuko_only
                · rw [if_pos hc2] at hres
                  by_cases hz : pyIn "中古" nm = true
                  · rw [if_pos hz, notifyResOf_spec, hp] at hres
                    exact Decision.noConfusion (Except.ok.inj hres)
                  · rw [if_neg hz] at hres
                    exact SkipReason.noConfusion (Decision.skip.inj (Except.ok.inj hres))
                · rw [if_neg hc2, notifyResOf_spec, hp] at hres
                  exact Decision.noConfusion (Except.ok.inj hres)
            · rw [if_neg h4] at hres
              exact absurd (SkipReason.noConfusion (Decision.skip.inj (Except.ok.inj hres)))
                (fun hc => hc)

/-- Witness for C10: an item with no seller object goes through evaluation
with shop 不明 and, with an empty exclusion set, reaches a notification. -/
theorem C10_missing_seller_witness :
    evalItem { fw := ["foo"], ng := none, cond := .include_all, excl := [], nameValue := "n" } []
        { name := some "foo x", url := some "u", price := some "9", seller := none } =
      evalItem { fw := ["foo"], ng := none, cond := .include_all, excl := [], nameValue := "n" } []
        { name := some "foo x", url := some "u", price := some "9", seller := some "不明" } ∧
    sellerDisplay { name := some "foo x", url := some "u", price := some "9", seller := none } =
      "不明" :=
  ⟨(C10_missing_seller
      { fw := ["foo"], ng := none, cond := .include_all, excl := [], nameValue := "n" } []
      { name := some "foo x", url := some "u", price := some "9", seller := none } rfl).1,
   (C10_missing_seller
      { fw := ["foo"], ng := none, cond := .include_all, excl := [], nameValue := "n" } []
      { name := some "foo x", url := some "u", price := some "9", seller := none } rfl).2.1⟩

end YahooTool

namespace YahooTool

/-- The condition-dispatch stage can only produce the used-marker skip
reasons or the notify outcome, never one of the earlier skip reasons. -/
lemma condStage_ne_skip_early (ctx : RuleCtx) (item : Item) (nm u : String) (r : SkipReason)
    (hr1 : r ≠ .usedExcluded) (hr2 : r ≠ .usedRequired) :
    (if ctx.cond = NotifyCondition.exclude_chuko then
        (if pyIn "中古" nm then Except.ok (Decision.skip .usedExcluded)
         else notifyResOf ctx item nm u)
      else if ctx.cond = NotifyCondition.include_chuko_only then
        (if pyIn "中古" nm then notifyResOf ctx item nm u
         else Except.ok (Decision.skip .usedRequired))
      else notifyResOf ctx item nm u) ≠ Except.ok (Decision.skip r) := by
  intro hcon
  split_ifs at hcon <;>
    first
    | exact hr1 (Decision.skip.inj (Except.ok.inj hcon)).symm
    | exact hr2 (Decision.skip.inj (Except.ok.inj hcon)).symm
    | (rw [notifyResOf_spec] at hcon
       cases hp : item.price with
       | none => rw [hp] at hcon; exact Except.noConfusion hcon
       | some p => rw [hp] at hcon; exact Decision.noConfusion (Except.ok.inj hcon))

/-- C1 (amended): the checks run in the order excluded shop, already
notified, negative keyword, keyword containment, condition, notify, with
the first failing check winning; tokenization happens at row level and an
all-length-1 keyword skips the row before any search call. In particular
the negative-keyword check is evaluated BEFORE keyword containment, so an
item that both misses a keyword token and contains a negative token is
skipped as `negativeKeywordHit`. -/
theorem C1_evaluation_order :
    (∀ row : Row, originalKeyword row ≠ "" →
      (∀ w ∈ keywordTokens row, w.length = 1) →
      rowPlan row = RowPlan.allTokensShort ∧ rowSearches row = false) ∧
    (∀ (ctx : RuleCtx) (ledger : List String) (item : Item) (nm u : String),
      item.name = some nm → item.url = some u →
      ((evalItem ctx ledger item = .ok (.skip .excludedShop) ↔
          sellerDisplay item ∈ ctx.excl) ∧
       (evalItem ctx ledger item = .ok (.skip .alreadyNotified) ↔
          sellerDisplay item ∉ ctx.excl ∧ u ∈ ledger) ∧
       (evalItem ctx ledger item = .ok (.skip .negativeKeywordHit) ↔
          sellerDisplay item ∉ ctx.excl ∧ u ∉ ledger ∧
          ngHitB ctx.ng (pyLower nm) = true) ∧
       (evalItem ctx ledger item = .ok (.skip .keywordMismatch) ↔
          sellerDisplay item ∉ ctx.excl ∧ u ∉ ledger ∧
          ngHitB ctx.ng (pyLower nm) = false ∧
          ctx.fw.all (fun w => pyIn (pyLower w) (pyLower nm)) = false) ∧
       (sellerDisplay item ∉ ctx.excl → u ∉ ledger →
          ngHitB ctx.ng (pyLower nm) = false →
          ctx.fw.all (fun w => pyIn (pyLower w) (pyLower nm)) = true →
          evalItem ctx ledger item =
            if ctx.cond = NotifyCondition.exclude_chuko then
              (if pyIn "中古" nm then Except.ok (Decision.skip .usedExcluded)
               else notifyResOf ctx item nm u)
            else if ctx.cond = NotifyCondition.include_chuko_only then
              (if pyIn "中古" nm then notifyResOf ctx item nm u
               else Except.ok (Decision.skip .usedRequired))
            else notifyResOf ctx item nm u))) := by
  constructor
  · intro row hne hall
    have hfw : filteredWords row = [] := by
      rw [filteredWords]
      exact List.filter_eq_nil_iff.mpr
        (fun w hw => by simp [isSingleCharacter, hall w hw])
    have hplan : rowPlan row = RowPlan.allTokensShort := by
      rw [rowPlan, if_neg hne, if_pos hfw]
    exact ⟨hplan, by rw [rowSearches, hplan]⟩
  · intro ctx ledger item nm u hn hu
    have hE := evalItem_unfold ctx ledger item nm u hn hu
    by_cases h1 : sellerDisplay item ∈ ctx.excl
    · rw [if_pos h1] at hE
      rw [hE]
      simp [h1]
    rw [if_neg h1] at hE
    by_cases h2 : u ∈ ledger
    · rw [if_pos h2] at hE
      rw [hE]
      simp [h1, h2]
    rw [if_neg h2] at hE
    by_cases h3 : ngHitB ctx.ng (pyLower nm) = true
    · rw [if_pos h3] at hE
      rw [hE]
      simp [h1, h2, h3]
    rw [if_neg h3] at hE
    by_cases h4 : (ctx.fw.all fun w => pyIn (pyLower w) (pyLower nm)) = true
    · rw [if_pos h4] at hE
      rw [hE]
      have hne1 := condStage_ne_skip_early ctx item nm u .excludedShop
        (by intro hc; cases hc) (by intro hc; cases hc)
      have hne2 := condStage_ne_skip_early ctx item nm u .alreadyNotified
        (by intro hc; cases hc) (by intro hc; cases hc)
      have hne3 := condStage_ne_skip_early ctx item nm u .negativeKeywordHit
        (by intro hc; cases hc) (by intro hc; cases hc)
      have hne4 := condStage_ne_skip_early ctx item nm u .keywordMismatch
        (by intro hc; cases hc) (by intro hc; cases hc)
      simp [h1, h2, h3, h4, hne1, hne2, hne3, hne4]
    · rw [if_neg h4] at hE
      rw [hE]
      simp [h1, h2, h3, h4]

/-- Witness for C1 (amended) at concrete inputs: a keyword of two
length-1 tokens skips the row before search, and an item hitting the
negative keyword while the shop and ledger checks pass is skipped as
`negativeKeywordHit`. -/
theorem C1_evaluation_order_witness :
    rowPlan { product_keyword := some "a b", ng_keyword := none, lowest_price := none,
              highest_price := none, sellerIdExs := none, product_condition := some "x",
              name := some "n" } = RowPlan.allTokensShort ∧
    evalItem { fw := ["foo"], ng := some "bar", cond := .include_all, excl := [],
               nameValue := "n" } []
      { name := some "bar thing", url := some "u", price := some "1", seller := some "s" } =
      .ok (.skip .negativeKeywordHit) :=
  ⟨(C1_evaluation_order.1
      { product_keyword := some "a b", ng_keyword := none, lowest_price := none,
        highest_price := none, sellerIdExs := none, product_condition := some "x",
        name := some "n" } (by decide) (by decide)).1,
   ((C1_evaluation_order.2
      { fw := ["foo"], ng := some "bar", cond := .include_all, excl := [], nameValue := "n" } []
      { name := some "bar thing", url := some "u", price := some "1", seller := some "s" }
      "bar thing" "u" rfl rfl).2.2.1).mpr ⟨by decide, by decide, by decide⟩⟩

/-- Counterexample to C1 as stated: this item misses the required keyword
token `foo` and contains the negative token `bar`; the code skips it as
`negativeKeywordHit`, not `keywordMismatch`, because the negative-keyword
check runs before the keyword containment check. -/
theorem C1_order_counterexample :
    evalItem { fw := ["foo"], ng := some "bar", cond := .include_all, excl := [],
               nameValue := "n" } []
      { name := some "bar thing", url := some "u", price := some "1", seller := some "s" } =
      .ok (.skip .negativeKeywordHit) ∧
    evalItem { fw := ["foo"], ng := some "bar", cond := .include_all, excl := [],
               nameValue := "n" } []
      { name := some "bar thing", url := some "u", price := some "1", seller := some "s" } ≠
      .ok (.skip .keywordMismatch) ∧
    pyIn (pyLower "foo") (pyLower "bar thing") = false ∧
    pyIn (pyLower "bar") (pyLower "bar thing") = true :=
  ⟨by decide, by decide, by decide, by decide⟩

end YahooTool

namespace YahooTool

/-- C3: an item whose URL is already in the ledger never yields a
notification, and a run started from the ledger state produced by a
previous run re-notifies none of the URLs notified by that previous run:
at most one notification per URL per ledger lifetime. -/
theorem C3_dedup_idempotent :
    (∀ (ctx : RuleCtx) (ledger : List String) (item : Item) (u : String) (d : Decision),
      item.url = some u → u ∈ ledger → evalItem ctx ledger item = .ok d →
      isNotifyDecision d = false) ∧
    (∀ (ctx : RuleCtx) (ledger : List String) (item : Item) (nm u : String),
      item.name = some nm → item.url = some u →
      sellerDisplay item ∉ ctx.excl → u ∈ ledger →
      evalItem ctx ledger item = .ok (.skip .alreadyNotified)) ∧
    (∀ (g1 g2 : List String) (c1 c2 : String → Bool)
        (rows1 rows2 : List (Row × Option (List Item))) (led0 : List String)
        (st1 st2 : BatchState),
      processRows g1 c1 rows1 { notified := led0, newUrls := [] } = .ok st1 →
      processRows g2 c2 rows2 { notified := st1.notified, newUrls := [] } = .ok st2 →
      ∀ u ∈ st1.newUrls, u ∉ st2.newUrls) := by
  refine ⟨?_, ?_, ?_⟩
  · intro ctx ledger item u d hu hmem he
    cases d with
    | skip r => rfl
    | notify u' m =>
      exfalso
      rcases evalItem_notify_url he with ⟨hu', hnot⟩
      rw [hu] at hu'
      have heq : u = u' := Option.some.inj hu'
      subst heq
      exact hnot hmem
  · intro ctx ledger item nm u hn hu hexcl hmem
    rw [evalItem_unfold ctx ledger item nm u hn hu, if_neg hexcl, if_pos hmem]
  · intro g1 g2 c1 c2 rows1 rows2 led0 st1 st2 h1 h2 u hu
    rcases processRows_append h1 with ⟨a1, hN1, hU1, _⟩
    rcases processRows_append h2 with ⟨a2, hN2, hU2, hF2⟩
    intro hu2
    have hu2' : u ∈ a2 := by
      rw [hU2] at hu2
      simpa using hu2
    apply hF2 u hu2'
    rw [hN1]
    apply List.mem_append_right
    rw [hU1] at hu
    simpa using hu

/-- Witness for C3 at concrete inputs: with URL u0 in the ledger the
decision is not a notification, and re-running one notifying row against
the updated ledger notifies nothing new. -/
theorem C3_dedup_idempotent_witness :
    isNotifyDecision (Decision.skip .alreadyNotified) = false ∧
    evalItem { fw := ["foo"], ng := none, cond := .include_all, excl := [], nameValue := "n" }
      ["u0"]
      { name := some "foo item", url := some "u0", price := some "10", seller := some "s" } =
      .ok (.skip .alreadyNotified) ∧
    ("u0" : String) ∉ ({ notified := ["u0"], newUrls := [] } : BatchState).newUrls :=
  ⟨C3_dedup_idempotent.1
      { fw := ["foo"], ng := none, cond := .include_all, excl := [], nameValue := "n" }
      ["u0"]
      { name := some "foo item", url := some "u0", price := some "10", seller := some "s" }
      "u0" (Decision.skip .alreadyNotified) rfl (by decide) (by decide),
   C3_dedup_idempotent.2.1
      { fw := ["foo"], ng := none, cond := .include_all, excl := [], nameValue := "n" }
      ["u0"]
      { name := some "foo item", url := some "u0", price := some "10", seller := some "s" }
      "foo item" "u0" rfl rfl (by decide) (by decide),
   C3_dedup_idempotent.2.2 [] [] (fun _ => true) (fun _ => true)
      [({ product_keyword := some "foo", ng_keyword := none, lowest_price := none,
          highest_price := none, sellerIdExs := none,
          product_condition := some "新品、未使用|x", name := some "n" },
        some [{ name := some "foo item", url := some "u0", price := some "10",
                seller := some "s" }])]
      [({ product_keyword := some "foo", ng_keyword := none, lowest_price := none,
          highest_price := none, sellerIdExs := none,
          product_condition := some "新品、未使用|x", name := some "n" },
        some [{ name := some "foo item", url := some "u0", price := some "10",
                seller := some "s" }])]
      [] { notified := ["u0"], newUrls := ["u0"] } { notified := ["u0"], newUrls := [] }
      (by decide) (by decide) "u0" (by decide)⟩

end YahooTool

namespace YahooTool

/-- The first `n` batch slices concatenate to the first `n * B` rows. -/
lemma concatBatches_take {α : Type _} (l : List α) (B : Nat) :
    ∀ n, concatBatches l B n = l.take (n * B) := by
  intro n
  induction n with
  | zero => simp [concatBatches]
  | succ n ih =>
    rw [concatBatches, ih, batchSlice, ← List.take_add, Nat.succ_mul]

/-- C5: with batch size B ≥ 1, the computed `total_batches` is exactly
the ceiling of rows over batch size (the least n with M ≤ n·B), the batch
slices for indices 0 .. total_batches-1 concatenate back to the full row
sequence with no gaps or overlaps, and the next batch is triggered exactly
when `batch_index + 1 < total_batches`. -/
theorem C5_batch_partition :
    ∀ {α : Type _} (l : List α) (B i : Nat), 1 ≤ B →
      (∀ n, totalBatches l.length B ≤ n ↔ l.length ≤ B * n) ∧
      concatBatches l B (totalBatches l.length B) = l ∧
      (triggersNextBatch l.length B i = true ↔ i + 1 < totalBatches l.length B) := by
  intro α l B i hB
  have hchar : ∀ n, totalBatches l.length B ≤ n ↔ l.length ≤ B * n := by
    intro n
    rw [totalBatches, Nat.div_le_iff_le_mul_add_pred hB]
    generalize B * n = K
    omega
  refine ⟨hchar, ?_, ?_⟩
  · have h1 : l.length ≤ B * totalBatches l.length B := (hchar _).mp le_rfl
    rw [concatBatches_take]
    exact List.take_of_length_le (by rw [Nat.mul_comm] at h1; exact h1)
  · rw [triggersNextBatch]
    simp

/-- Witness for C5 at M = 3, B = 2: two batches reconstruct the list and
only batch 0 triggers a successor. -/
theorem C5_batch_partition_witness :
    concatBatches [10, 11, 12] 2 (totalBatches 3 2) = [10, 11, 12] ∧
    (triggersNextBatch 3 2 0 = true ↔ 0 + 1 < totalBatches 3 2) :=
  ⟨(C5_batch_partition [10, 11, 12] 2 0 (by decide)).2.1,
   (C5_batch_partition [10, 11, 12] 2 0 (by decide)).2.2⟩

/-- Looking up every position of a list in order returns the list. -/
lemma filterMap_get_range {α : Type _} : ∀ l : List α,
    (List.range l.length).filterMap (fun i => l.get? i) = l := by
  intro l
  induction l with
  | nil => rfl
  | cons a t ih =>
    rw [List.length_cons, List.range_succ_eq_map]
    have hcomp : ((fun i => (a :: t).get? i) ∘ Nat.succ) = fun i => t.get? i := by
      funext i
      simp
    simp only [List.filterMap_cons, List.filterMap_map, hcomp, ih]
    rfl

/-- C6: variant 1 takes the rows at even 0-based positions, variant 2 the
rows at odd positions; the index sets are disjoint and together they are a
permutation of all positions, so the two row subsets are disjoint and
their union is the full unfiltered row sequence. -/
theorem C6_even_odd_partition :
    ∀ {α : Type _} (l : List α),
      List.Disjoint (evenIdxs l.length) (oddIdxs l.length) ∧
      (evenIdxs l.length ++ oddIdxs l.length).Perm (List.range l.length) ∧
      (variant1ConfigRows l ++ variant2ConfigRows l).Perm l := by
  intro α l
  have hodd : oddIdxs l.length =
      (List.range l.length).filter (fun i => !(i % 2 == 0)) := by
    rw [oddIdxs]
    congr 1
    funext i
    rcases Nat.mod_two_eq_zero_or_one i with h | h <;> simp [h]
  have hperm : (evenIdxs l.length ++ oddIdxs l.length).Perm (List.range l.length) := by
    rw [hodd, evenIdxs]
    exact List.filter_append_perm _ _
  refine ⟨?_, hperm, ?_⟩
  · intro a h1 h2
    rw [evenIdxs, List.mem_filter] at h1
    rw [oddIdxs, List.mem_filter] at h2
    have e1 := h1.2
    have e2 := h2.2
    simp only [beq_iff_eq] at e1 e2
    omega
  · rw [variant1ConfigRows, variant2ConfigRows, rowsAtIdxs, rowsAtIdxs,
        ← List.filterMap_append]
    have h2 := hperm.filterMap (fun i => l.get? i)
    rw [filterMap_get_range l] at h2
    exact h2

end YahooTool

namespace YahooTool

/-- Counterexample to C7 as stated: with URL u1 in the backing store, a
failed ledger read (caught and degraded to an empty set) followed by the
whole-object rewrite of variant 2 persists a ledger that no longer
contains u1 — the persisted contents are not a superset of the contents at
batch start for every load outcome. -/
theorem C7_ledger_loss_counterexample :
    variant2Batch (some ["u1"]) .failure (fun _ => true) [] = some [] ∧
    ("u1" : String) ∈ (["u1"] : List String) ∧
    ("u1" : String) ∉ ([] : List String) :=
  ⟨by decide, by decide, by decide⟩

/-- C7 (amended): the DynamoDB variant only appends, so for every load
outcome the persisted key set contains the store at batch start and is
extended exactly by the newly notified URLs; the S3 variant guarantees
this only when the ledger load succeeds, in which case the rewritten
object is the loaded set extended exactly by the newly notified URLs. -/
theorem C7_ledger_persistence :
    (∀ (store : List String) (loadOk : Bool) (g : List String) (c : String → Bool)
        (rows : List (Row × Option (List Item))) (u : String),
      u ∈ store → u ∈ variant1Batch store loadOk g c rows) ∧
    (∀ (store : List String) (loadOk : Bool) (g : List String) (c : String → Bool)
        (rows : List (Row × Option (List Item))) (st : BatchState),
      processRows g c rows
        { notified := (if loadOk then store else []), newUrls := [] } = .ok st →
      variant1Batch store loadOk g c rows = store ++ st.newUrls) ∧
    (∀ (store : List String) (c : String → Bool)
        (rows : List (Row × Option (List Item))) (st : BatchState),
      processRows [] c rows { notified := store, newUrls := [] } = .ok st →
      variant2Batch (some store) .success c rows = some st.notified ∧
      st.notified = store ++ st.newUrls) := by
  refine ⟨?_, ?_, ?_⟩
  · intro store loadOk g c rows u hu
    simp only [variant1Batch]
    cases h : processRows g c rows { notified := if loadOk then store else [], newUrls := [] } with
    | ok st => exact List.mem_append_left _ hu
    | error e => exact hu
  · intro store loadOk g c rows st h
    simp only [variant1Batch]
    rw [h]
    rfl
  · intro store c rows st h
    constructor
    · simp only [variant2Batch, loadNotifiedList]
      rw [h]
      rfl
    · rcases processRows_append h with ⟨a, hN, hU, _⟩
      rw [hN, hU]
      simp

/-- Witness for C7 (amended) at concrete inputs. -/
theorem C7_ledger_persistence_witness :
    ("a" : String) ∈ variant1Batch ["a"] true [] (fun _ => true) [] ∧
    variant2Batch (some ["a"]) .success (fun _ => true) [] = some ["a"] :=
  ⟨C7_ledger_persistence.1 ["a"] true [] (fun _ => true) [] "a" (by decide),
   (C7_ledger_persistence.2.2 ["a"] (fun _ => true) []
      { notified := ["a"], newUrls := [] } (by decide)).1⟩

/-- All items of one hits list are processed without an exception when
their required fields are present. -/
lemma processItems_ok_of_fields {ctx : RuleCtx} {c : String → Bool} {items : List Item}
    (hf : ∀ it ∈ items, it.name ≠ none ∧ it.url ≠ none ∧ it.price ≠ none) :
    ∀ st, ∃ st', processItems ctx c items st = .ok st' := by
  induction items with
  | nil => exact fun st => ⟨st, rfl⟩
  | cons it rest ih =>
    intro st
    rcases hf it (List.mem_cons_self it rest) with ⟨hn, hu, hp⟩
    rcases @evalItem_ok_of_fields ctx st.notified it hn hu hp with ⟨d, hd⟩
    have hstep : ∃ st₁, processItem ctx c st it = .ok st₁ := by
      unfold processItem
      rw [hd]
      cases d with
      | skip r => exact ⟨st, rfl⟩
      | notify u m =>
        by_cases hc : c u = true
        · refine ⟨{ notified := st.notified ++ [u], newUrls := st.newUrls ++ [u] }, ?_⟩
          show (if c u = true then
              Except.ok { notified := st.notified ++ [u], newUrls := st.newUrls ++ [u] }
            else Except.ok st) = _
          rw [if_pos hc]
        · refine ⟨st, ?_⟩
          show (if c u = true then
              Except.ok { notified := st.notified ++ [u], newUrls := st.newUrls ++ [u] }
            else Except.ok st) = _
          rw [if_neg hc]
    rcases hstep with ⟨st₁, h₁⟩
    rcases ih (fun x hx => hf x (List.mem_cons_of_mem it hx)) st₁ with ⟨st', h'⟩
    refine ⟨st', ?_⟩
    unfold processItems
    rw [h₁]
    exact h'

/-- C8 (amended): failures of the search call (no result) and of the
notification call never abort the row loop, and a batch whose search
results all carry the required item fields completes without an uncaught
exception for every notification outcome; an item missing a required
field, by contrast, raises an error that aborts the whole batch (see the
counterexample). -/
theorem C8_error_containment :
    ∀ (g : List String) (c : String → Bool) (rows : List (Row × Option (List Item)))
        (st : BatchState),
      (∀ p ∈ rows, ∀ it ∈ (p.2.getD []), it.name ≠ none ∧ it.url ≠ none ∧ it.price ≠ none) →
      ∃ st', processRows g c rows st = .ok st' := by
  intro g c rows
  induction rows with
  | nil => exact fun st _ => ⟨st, rfl⟩
  | cons p rest ih =>
    intro st hf
    rcases p with ⟨row, res⟩
    have hrow : ∃ st₁, processRow g c st row res = .ok st₁ := by
      unfold processRow
      rcases hp : rowPlan row with _ | _ | kw
      · exact ⟨st, rfl⟩
      · exact ⟨st, rfl⟩
      · cases res with
        | none => exact ⟨st, rfl⟩
        | some items =>
          exact processItems_ok_of_fields
            (fun it hit => hf (row, some items) (List.mem_cons_self _ _) it hit) st
    rcases hrow with ⟨st₁, h₁⟩
    rcases ih st₁ (fun x hx => hf x (List.mem_cons_of_mem _ hx)) with ⟨st', h'⟩
    refine ⟨st', ?_⟩
    unfold processRows
    rw [h₁]
    exact h'

/-- Witness for C8 (amended): a batch with a failed search on one row and
a failing notification endpoint still completes. -/
theorem C8_error_containment_witness :
    ∃ st', processRows [] (fun _ => false)
      [({ product_keyword := some "foo", ng_keyword := none, lowest_price := none,
          highest_price := none, sellerIdExs := none,
          product_condition := some "新品、未使用|x", name := some "n" }, none),
       ({ product_keyword := some "foo", ng_keyword := none, lowest_price := none,
          highest_price := none, sellerIdExs := none,
          product_condition := some "新品、未使用|x", name := some "n" },
        some [{ name := some "foo ok", url := some "u2", price := some "5",
                seller := some "s" }])]
      { notified := [], newUrls := [] } = .ok st' :=
  C8_error_containment [] (fun _ => false) _ { notified := [], newUrls := [] } (by decide)

/-- Counterexample to C8 as stated: an item with a missing required field
is not caught inside the row loop; its error aborts the whole batch, so a
second row that would have produced a notification is never processed. -/
theorem C8_error_propagation_counterexample :
    processRows [] (fun _ => true)
      [({ product_keyword := some "foo", ng_keyword := none, lowest_price := none,
          highest_price := none, sellerIdExs := none,
          product_condition := some "新品、未使用|x", name := some "n" },
        some [{ name := none, url := some "u", price := some "1", seller := some "s" }]),
       ({ product_keyword := some "foo", ng_keyword := none, lowest_price := none,
          highest_price := none, sellerIdExs := none,
          product_condition := some "新品、未使用|x", name := some "n" },
        some [{ name := some "foo ok", url := some "u2", price := some "5",
                seller := some "s" }])]
      { notified := [], newUrls := [] } = .error (.missingField "name") ∧
    processRows [] (fun _ => true)
      [({ product_keyword := some "foo", ng_keyword := none, lowest_price := none,
          highest_price := none, sellerIdExs := none,
          product_condition := some "新品、未使用|x", name := some "n" },
        some [{ name := some "foo ok", url := some "u2", price := some "5",
                seller := some "s" }])]
      { notified := [], newUrls := [] } =
      .ok { notified := ["u2"], newUrls := ["u2"] } :=
  ⟨by decide, by decide⟩

end YahooTool

namespace YahooTool

/-- Success of the Chatwork retry loop, characterized: starting at request
index `k` with `n` attempts left, the loop returns `True` exactly when
some attempt within the window receives status 200 and every earlier
attempt in the window received status 429 (no exceptions assumed). -/
lemma sendLoop_success_iff (events : Nat → ChatworkEvent)
    (hne : ∀ k, events k ≠ ChatworkEvent.exn) :
    ∀ n k, (sendChatworkLoop events k n).success = true ↔
      ∃ i, i < n ∧ statusOf (events (k + i)) = some 200 ∧
        ∀ j, j < i → statusOf (events (k + j)) = some 429 := by
  intro n
  induction n with
  | zero =>
    intro k
    simp [sendChatworkLoop]
  | succ n ih =>
    intro k
    cases he : events k with
    | exn => exact absurd he (hne k)
    | resp s ra =>
      by_cases h200 : s = 200
      · subst h200
        simp only [sendChatworkLoop, he]
        constructor
        · intro _
          exact ⟨0, Nat.succ_pos n, by rw [Nat.add_zero, he]; rfl,
            fun j hj => absurd hj (Nat.not_lt_zero j)⟩
        · intro _
          rfl
      · by_cases h429 : s = 429
        · subst h429
          have hred : sendChatworkLoop events k (n + 1) =
              { success := (sendChatworkLoop events (k + 1) n).success,
                requests := (sendChatworkLoop events (k + 1) n).requests,
                sleeps := (ra.getD 5) :: 2 :: (sendChatworkLoop events (k + 1) n).sleeps } := by
            simp [sendChatworkLoop, he]
          rw [hred]
          constructor
          · intro hs
            rcases (ih (k + 1)).mp hs with ⟨i, hi, hok, hpre⟩
            refine ⟨i + 1, by omega, ?_, ?_⟩
            · have hidx : k + (i + 1) = k + 1 + i := by omega
              rw [hidx]
              exact hok
            · intro j hj
              cases j with
              | zero => rw [Nat.add_zero, he]; rfl
              | succ j' =>
                have hj' := hpre j' (by omega)
                have hidx : k + (j' + 1) = k + 1 + j' := by omega
                rw [hidx]
                exact hj'
          · rintro ⟨i, hi, hok, hpre⟩
            cases i with
            | zero =>
              rw [Nat.add_zero, he] at hok
              exact absurd (Option.some.inj hok) h200
            | succ i' =>
              apply (ih (k + 1)).mpr
              refine ⟨i', by omega, ?_, ?_⟩
              · have hidx : k + 1 + i' = k + (i' + 1) := by omega
                rw [hidx]
                exact hok
              · intro j hj
                have hj' := hpre (j + 1) (by omega)
                have hidx : k + 1 + j = k + (j + 1) := by omega
                rw [hidx]
                exact hj'
        · have hred : sendChatworkLoop events k (n + 1) =
              { success := false, requests := k + 1, sleeps := [] } := by
            simp [sendChatworkLoop, he, h200, h429]
          rw [hred]
          simp only [Bool.false_eq_true, false_iff]
          rintro ⟨i, hi, hok, hpre⟩
          cases i with
          | zero =>
            rw [Nat.add_zero, he] at hok
            exact h200 (Option.some.inj hok)
          | succ i' =>
            have := hpre 0 (Nat.succ_pos i')
            rw [Nat.add_zero, he] at this
            exact h429 (Option.some.inj this)

end YahooTool

namespace YahooTool

/-- With at least one attempt left, the retry loop performs at least one
more HTTP request. -/
lemma sendLoop_requests_ge (events : Nat → ChatworkEvent) :
    ∀ n k, 1 ≤ n → k + 1 ≤ (sendChatworkLoop events k n).requests := by
  intro n
  induction n with
  | zero => intro k h; exact absurd h (by omega)
  | succ n ih =>
    intro k _
    cases he : events k with
    | exn =>
      cases n with
      | zero => simp [sendChatworkLoop, he]
      | succ m =>
        have h := ih (k + 1) (by omega)
        have hred : sendChatworkLoop events k (m + 1 + 1) =
            { success := (sendChatworkLoop events (k + 1) (m + 1)).success,
              requests := (sendChatworkLoop events (k + 1) (m + 1)).requests,
              sleeps := 2 :: (sendChatworkLoop events (k + 1) (m + 1)).sleeps } := by
          simp [sendChatworkLoop, he]
        rw [hred]
        exact Nat.le_trans (by omega) h
    | resp s ra =>
      by_cases h200 : (s == 200) = true
      · simp [sendChatworkLoop, he, h200]
      · by_cases h429 : (s == 429) = true
        · cases n with
          | zero => simp [sendChatworkLoop, he, h200, h429]
          | succ m =>
            have h := ih (k + 1) (by omega)
            have hred : sendChatworkLoop events k (m + 1 + 1) =
                { success := (sendChatworkLoop events (k + 1) (m + 1)).success,
                  requests := (sendChatworkLoop events (k + 1) (m + 1)).requests,
                  sleeps := (ra.getD 5) :: 2 ::
                    (sendChatworkLoop events (k + 1) (m + 1)).sleeps } := by
              simp [sendChatworkLoop, he, h200, h429]
            rw [hred]
            exact Nat.le_trans (by omega) h
        · simp [sendChatworkLoop, he, h200, h429]

/-- C9: with at most 3 attempts, `send_chatwork_notification` returns
True exactly when an attempt receives status 200 after a (possibly empty)
run of 429 responses; a reached response with any other status ends the
loop immediately with False after exactly that request; and a reached 429
response with retries remaining is followed by another request after
sleeping the parsed Retry-After value, defaulting to 5 when the header is
absent. -/
theorem C9_notify_retry :
    ∀ events : Nat → ChatworkEvent,
      (∀ k, events k ≠ ChatworkEvent.exn) →
      (((sendChatworkNotification events).success = true) ↔
        (∃ k, k < 3 ∧ statusOf (events k) = some 200 ∧
          ∀ j, j < k → statusOf (events j) = some 429)) ∧
      (∀ k, k < 3 → (∀ j, j < k → statusOf (events j) = some 429) →
        statusOf (events k) ≠ some 200 → statusOf (events k) ≠ some 429 →
        (sendChatworkNotification events).success = false ∧
        (sendChatworkNotification events).requests = k + 1) ∧
      (∀ k, k + 1 < 3 → (∀ j, j ≤ k → statusOf (events j) = some 429) →
        (sendChatworkNotification events).requests ≥ k + 2 ∧
        (sendChatworkNotification events).sleeps.get? (2 * k) =
          some ((retryAfterOf (events k)).getD 5)) := by
  intro events hne
  have hrs : ∀ j, ∃ s ra, events j = ChatworkEvent.resp s ra := by
    intro j
    cases hej : events j with
    | exn => exact absurd hej (hne j)
    | resp s ra => exact ⟨s, ra, rfl⟩
  refine ⟨?_, ?_, ?_⟩
  · have h := sendLoop_success_iff events hne 3 0
    simpa [sendChatworkNotification] using h
  · intro k hk hpre h200 h429
    have hflags : ∀ j s ra, events j = ChatworkEvent.resp s ra →
        statusOf (events j) ≠ some 200 → statusOf (events j) ≠ some 429 →
        (s == 200) = false ∧ (s == 429) = false := by
      intro j s ra hej hj200 hj429
      constructor
      · cases hbe : (s == 200) with
        | false => rfl
        | true =>
          exfalso
          apply hj200
          have hseq : s = 200 := by simpa using hbe
          rw [hej, hseq]
          rfl
      · cases hbe : (s == 429) with
        | false => rfl
        | true =>
          exfalso
          apply hj429
          have hseq : s = 429 := by simpa using hbe
          rw [hej, hseq]
          rfl
    interval_cases k
    · rcases hrs 0 with ⟨s, ra, he0⟩
      rcases hflags 0 s ra he0 h200 h429 with ⟨hs200, hs429⟩
      constructor <;> simp [sendChatworkNotification, sendChatworkLoop, he0, hs200, hs429]
    · rcases hrs 0 with ⟨s0, ra0, he0⟩
      have hs0 : s0 = 429 := by
        have h0 := hpre 0 (by omega)
        rw [he0] at h0
        exact Option.some.inj h0
      subst hs0
      rcases hrs 1 with ⟨s, ra, he1⟩
      rcases hflags 1 s ra he1 h200 h429 with ⟨hs200, hs429⟩
      constructor <;> simp [sendChatworkNotification, sendChatworkLoop, he0, he1, hs200, hs429]
    · rcases hrs 0 with ⟨s0, ra0, he0⟩
      have hs0 : s0 = 429 := by
        have h0 := hpre 0 (by omega)
        rw [he0] at h0
        exact Option.some.inj h0
      subst hs0
      rcases hrs 1 with ⟨s1, ra1, he1⟩
      have hs1 : s1 = 429 := by
        have h1 := hpre 1 (by omega)
        rw [he1] at h1
        exact Option.some.inj h1
      subst hs1
      rcases hrs 2 with ⟨s, ra, he2⟩
      rcases hflags 2 s ra he2 h200 h429 with ⟨hs200, hs429⟩
      constructor <;>
        simp [sendChatworkNotification, sendChatworkLoop, he0, he1, he2, hs200, hs429]
  · intro k hk hpre
    have hk2 : k < 2 := by omega
    interval_cases k
    · rcases hrs 0 with ⟨s0, ra0, he0⟩
      have hs0 : s0 = 429 := by
        have h0 := hpre 0 (by omega)
        rw [he0] at h0
        exact Option.some.inj h0
      subst hs0
      have hreq := sendLoop_requests_ge events 2 1 (by omega)
      have hred : sendChatworkNotification events =
          { success := (sendChatworkLoop events 1 2).success,
            requests := (sendChatworkLoop events 1 2).requests,
            sleeps := (ra0.getD 5) :: 2 :: (sendChatworkLoop events 1 2).sleeps } := by
        simp [sendChatworkNotification, sendChatworkLoop, he0]
      rw [hred]
      constructor
      · exact hreq
      · simp [retryAfterOf, he0]
    · rcases hrs 0 with ⟨s0, ra0, he0⟩
      have hs0 : s0 = 429 := by
        have h0 := hpre 0 (by omega)
        rw [he0] at h0
        exact Option.some.inj h0
      subst hs0
      rcases hrs 1 with ⟨s1, ra1, he1⟩
      have hs1 : s1 = 429 := by
        have h1 := hpre 1 (by omega)
        rw [he1] at h1
        exact Option.some.inj h1
      subst hs1
      have hreq := sendLoop_requests_ge events 1 2 (by omega)
      have hred : sendChatworkNotification events =
          { success := (sendChatworkLoop events 2 1).success,
            requests := (sendChatworkLoop events 2 1).requests,
            sleeps := (ra0.getD 5) :: 2 :: (ra1.getD 5) :: 2 ::
              (sendChatworkLoop events 2 1).sleeps } := by
        simp [sendChatworkNotification, sendChatworkLoop, he0, he1]
      rw [hred]
      constructor
      · exact hreq
      · simp [retryAfterOf, he1]

/-- Witness for C9 at a concrete response sequence: a 429 carrying
Retry-After 7 followed by a 200 succeeds, having slept 7 before the
retry. -/
theorem C9_notify_retry_witness :
    (sendChatworkNotification
        (fun k => if k = 0 then ChatworkEvent.resp 429 (some 7)
                  else ChatworkEvent.resp 200 none)).success = true ∧
    (sendChatworkNotification
        (fun k => if k = 0 then ChatworkEvent.resp 429 (some 7)
                  else ChatworkEvent.resp 200 none)).sleeps.get? 0 = some 7 := by
  have hne : ∀ k, (fun k => if k = 0 then ChatworkEvent.resp 429 (some 7)
      else ChatworkEvent.resp 200 none) k ≠ ChatworkEvent.exn := by
    intro k
    by_cases h : k = 0 <;> simp [h]
  constructor
  · exact (C9_notify_retry
      (fun k => if k = 0 then ChatworkEvent.resp 429 (some 7)
                else ChatworkEvent.resp 200 none) hne).1.mpr
      ⟨1, by omega, by decide,
        fun j hj => by
          have hj0 : j = 0 := by omega
          subst hj0
          decide⟩
  · exact ((C9_notify_retry
      (fun k => if k = 0 then ChatworkEvent.resp 429 (some 7)
                else ChatworkEvent.resp 200 none) hne).2.2 0 (by omega)
      (fun j hj => by
        have hj0 : j = 0 := by omega
        subst hj0
        decide)).2

end YahooTool
